import Mathlib

/-!
# heartbeat-monitor: the poll cycle of `cmd/heartbeat-monitor.go`

A shallow embedding of `HeartbeatMonitor.poll`, `HeartbeatMonitor.Start` and
`main`.

* Go's `int` is taken to be 64 bits wide (the 64-bit targets), `int64`
  arithmetic wraps modulo `2^64`, and the conversion `float64(x)` of an
  `int64` rounds to the nearest float64, ties to even.  A float64 obtained
  that way is always an integer, so a gauge value is represented by the
  integer it denotes.
* The gauge vector `memberTimeBehind` is a finite map from the value of the
  label `member` to the gauge value; it is embedded as a partial function.
* A Go map is embedded as the list of its entries in the order in which
  `range` visits them; its keys are pairwise distinct.
* What the outside world answers during one call of `poll` (the HTTP
  exchange, the wall clock, `json.Unmarshal`) is an explicit argument.
-/

namespace Heartbeat

/-! ## Machine arithmetic -/

/-- Reduction of an integer to the `int64` range `[-2^63, 2^63)` (two's complement). -/
def wrapInt64 (x : Int) : Int :=
  (x + 2 ^ 63) % 2 ^ 64 - 2 ^ 63

/-- Membership in the `int64` range. -/
def inInt64 (x : Int) : Prop :=
  -(2 ^ 63) ≤ x ∧ x < 2 ^ 63

instance (x : Int) : Decidable (inInt64 x) := by
  unfold inInt64; exact inferInstance

/-- Rounding of the natural number `a` to the nearest multiple of `2^e`, ties going to the
multiple whose quotient by `2^e` is even. -/
def roundGrid (a e : Nat) : Nat :=
  let q := a / 2 ^ e
  let r := a % 2 ^ e
  if 2 ^ e < 2 * r ∨ (2 * r = 2 ^ e ∧ q % 2 = 1) then (q + 1) * 2 ^ e else q * 2 ^ e

/-- Number of binary digits of `n`, found by halving at most `fuel` times. -/
def bitLengthAux : Nat → Nat → Nat
  | 0, _ => 0
  | fuel + 1, n => if n = 0 then 0 else bitLengthAux fuel (n / 2) + 1

/-- Number of binary digits of `n` (`0` for `n = 0`). -/
def bitLength (n : Nat) : Nat :=
  bitLengthAux n n

/-- Number of low-order bits of the magnitude `a` that do not fit a 53-bit significand. -/
def droppedBits (a : Nat) : Nat :=
  bitLength a - 53

/-- The float64 nearest to the magnitude `a` (round to nearest, ties to even). -/
def float64OfNat (a : Nat) : Nat :=
  roundGrid a (droppedBits a)

/-- Go's conversion `float64(x)` for an `int64` operand `x`, as the integer the resulting
float64 denotes. -/
def float64OfInt (x : Int) : Int :=
  if 0 ≤ x then (float64OfNat x.natAbs : Int) else -(float64OfNat x.natAbs : Int)

/-! ## Data model -/

/-- Go `type IngesterResponse struct`. -/
structure IngesterResponse where
  Addr : String
  Timestamp : Int
  Tokens : List Int
  Reg : Int
  deriving DecidableEq, Repr

/-- Go `type ringResponse struct`; the map is listed in iteration order. -/
structure ringResponse where
  Ingesters : List (String × IngesterResponse)

/-- The member identifiers of a snapshot. -/
def ringResponse.members (r : ringResponse) : List String :=
  r.Ingesters.map Prod.fst

/-- Go `type HeartbeatMonitor struct` (the logger is left out, the interval is in
nanoseconds). -/
structure HeartbeatMonitor where
  pollInterval : Int
  serviceAddr : String
  viewKey : String

/-- Go `NewHeartbeatMonitor`. -/
def NewHeartbeatMonitor (pollInterval : Int) (serviceAddr : String) (viewKey : String) :
    HeartbeatMonitor :=
  { serviceAddr := serviceAddr, pollInterval := pollInterval, viewKey := viewKey }

/-- The gauge vector `memberTimeBehind`: label value to gauge value, `none` for a label
that has no series yet. -/
abbrev Store := String → Option Int

/-- The gauge vector at process start. -/
def emptyStore : Store := fun _ => none

/-- Go `memberTimeBehind.WithLabelValues(k).Set(v)`: creates the series when it is missing
and overwrites its value. -/
def setGauge (s : Store) (k : String) (v : Int) : Store :=
  fun l => if l = k then some v else s l

/-! ## fmt.Sprintf, restricted to the verb `%s` with string operands -/

/-- Expansion of a format (as characters) over string operands. -/
def sprintfChars : List Char → List String → List Char
  | '%' :: 's' :: rest, a :: args => a.data ++ sprintfChars rest args
  | c :: rest, args => c :: sprintfChars rest args
  | [], _ => []

/-- Go `fmt.Sprintf` for formats whose only verbs are `%s`, each with its operand. -/
def sprintf (format : String) (args : List String) : String :=
  String.mk (sprintfChars format.data args)

/-- The URL requested by `poll` (line 100). -/
def pollURL (h : HeartbeatMonitor) : String :=
  sprintf "http://%s/memberlist?viewKey=%s&format=json-pretty" [h.serviceAddr, h.viewKey]

/-- The monitor built by `main` when no flag is given (the flag defaults of lines 43-46). -/
def defaultMonitor : HeartbeatMonitor :=
  NewHeartbeatMonitor 3000000000 "host.docker.internal:8080" "collectors/ring"

/-! ## poll -/

/-- An HTTP response as `poll` uses it: what `ioutil.ReadAll(resp.Body)` returns. -/
structure Response where
  readAll : Except String String

/-- The answers of the outside world during one call of `poll`. -/
structure World where
  /-- Result of `http.Get` for a URL. -/
  httpGet : String → Except String Response
  /-- Result of `time.Now().Unix()`. -/
  now : Int
  /-- Result of `json.Unmarshal(body, &r)`. -/
  unmarshal : String → Except String ringResponse

/-- A world in which the GET succeeds, the body is read, and the body decodes to `r`, at
Unix time `t`. -/
def World.serving (r : ringResponse) (t : Int) : World :=
  { httpGet := fun _ => .ok { readAll := .ok "" }, now := t, unmarshal := fun _ => .ok r }

/-- A world in which the GET succeeds and the body is read but is not JSON. -/
def World.malformed (t : Int) : World :=
  { httpGet := fun _ => .ok { readAll := .ok "not json" }, now := t,
    unmarshal := fun _ => .error "invalid character" }

/-- How a call of `poll` ends: it returns, or `h.logger.Fatal` terminates the process. -/
inductive Outcome where
  | returned
  | fatal (msg : String)
  deriving DecidableEq, Repr

/-- The body of the `range` loop of `poll` (lines 115-116) for one map entry. -/
def updateMember (currentTime : Int) (s : Store) (e : String × IngesterResponse) : Store :=
  let diff := wrapInt64 (currentTime - wrapInt64 e.2.Timestamp)
  setGauge s e.1 (float64OfInt diff)

/-- The `range` loop of `poll` (lines 114-117) over the entries in visiting order. -/
def updateAll (currentTime : Int) (entries : List (String × IngesterResponse)) (s : Store) :
    Store :=
  entries.foldl (updateMember currentTime) s

/-- Go `HeartbeatMonitor.poll` (lines 99-118). -/
def poll (h : HeartbeatMonitor) (w : World) (s : Store) : Outcome × Store :=
  let got := w.httpGet (pollURL h)
  let currentTime := wrapInt64 w.now
  match got with
  | .error _ => (.fatal "failed getting response from service", s)
  | .ok resp =>
    match resp.readAll with
    | .error _ => (.fatal "failed reading response from service", s)
    | .ok body =>
      match w.unmarshal body with
      | .error _ => (.fatal "failed unmarshalling response from service", s)
      | .ok r => (.returned, updateAll currentTime r.Ingesters s)

/-! ## Start, the poll loop and main -/

/-- What the process has done so far, one event per completed statement. -/
inductive Event where
  /-- The call `h.poll(ctx)` of line 83 has returned. -/
  | initialPoll
  /-- Execution of `time.NewTicker` (line 84). -/
  | tickerCreated
  /-- Execution of the `go` statement of line 86. -/
  | loopStarted
  /-- Execution of `h.logger.Println("msg", "starting poll cycle")` (line 88). -/
  | cycleLogged
  /-- The call `h.poll(ctx)` of line 91 has returned. -/
  | tickPoll
  /-- The case `<-ctx.Done()` of line 92 has run. -/
  | cancelSeen
  /-- The call `exposeMetrics(logger, *metricsPort)` of line 55 has returned. -/
  | metricsExposed
  /-- A call of `logger.Fatal` has terminated the process. -/
  | fatal
  /-- A panic has terminated the process. -/
  | panicked
  /-- Return of `main` (line 59). -/
  | mainReturned
  deriving DecidableEq, Repr

/-- State of the process. -/
structure Proc where
  /-- The gauge vector. -/
  store : Store
  /-- Events so far, oldest first. -/
  trace : List Event
  /-- The goroutine of line 86 exists and is inside its `for` loop. -/
  loopRunning : Bool
  /-- The context has been cancelled. -/
  cancelled : Bool
  /-- The call of `exposeMetrics` in `main` has been made. -/
  exposed : Bool
  /-- The process has terminated. -/
  exited : Bool

/-- The process before `Start` is called, with gauge vector `s`. -/
def Proc.init (s : Store) : Proc :=
  { store := s, trace := [], loopRunning := false, cancelled := false, exposed := false,
    exited := false }

/-- Appends an event to the trace. -/
def Proc.log (p : Proc) (e : Event) : Proc :=
  { p with trace := p.trace ++ [e] }

/-- A call `h.poll(ctx)` made by the process: the store is the one `poll` leaves, and a
fatal outcome terminates the process; `e` is recorded when the call returns. -/
def callPoll (h : HeartbeatMonitor) (w : World) (e : Event) (p : Proc) : Proc :=
  match poll h w p.store with
  | (.returned, s) => { p with store := s, trace := p.trace ++ [e] }
  | (.fatal _, s) => { p with store := s, trace := p.trace ++ [.fatal], exited := true }

/-- Go `HeartbeatMonitor.Start` (lines 81-97): the initial poll, the ticker, the `go`
statement; `w` is the world during the initial poll.  `time.NewTicker` panics when the
interval is not positive. -/
def Start (h : HeartbeatMonitor) (w : World) (p : Proc) : Proc :=
  let p1 := callPoll h w .initialPoll p
  if p1.exited then p1 else
  if h.pollInterval ≤ 0 then { p1 with trace := p1.trace ++ [.panicked], exited := true } else
  let p2 := p1.log .tickerCreated
  { p2 with loopRunning := true, trace := p2.trace ++ [.loopStarted] }

/-- The case of the `select` statement of lines 89-94 that runs. -/
inductive SelectCase where
  /-- The case `<-ticker.C`. -/
  | tickerC
  /-- The case `<-ctx.Done()`. -/
  | ctxDone
  deriving DecidableEq, Repr

/-- How the statements of a `select` case end. -/
inductive Ctl where
  /-- The end of the statement list was reached. -/
  | normal
  /-- A `break` statement ran. -/
  | brk
  deriving DecidableEq, Repr

/-- The statements of the `select` case that runs (lines 90-93). -/
def selectCase (h : HeartbeatMonitor) (c : SelectCase) (w : World) (p : Proc) : Proc × Ctl :=
  match c with
  | .tickerC => (callPoll h w .tickPoll p, .normal)
  | .ctxDone => (p.log .cancelSeen, .brk)

/-- The `select` statement of lines 89-94.  The `break` of line 93 has no label, so it ends
the innermost enclosing `for`, `switch` or `select` statement, which is this `select`:
either way of ending the case ends the `select` statement and nothing more. -/
def selectStmt (h : HeartbeatMonitor) (c : SelectCase) (w : World) (p : Proc) : Proc :=
  match selectCase h c w p with
  | (p1, .normal) => p1
  | (p1, .brk) => p1

/-- One iteration of the `for` loop of lines 87-95.  The loop has no condition and its body
has no statement that leaves it, so the goroutine stays in the loop. -/
def loopIteration (h : HeartbeatMonitor) (c : SelectCase) (w : World) (p : Proc) : Proc :=
  selectStmt h c w (p.log .cycleLogged)

/-- Go `exposeMetrics` as `main` sees it: the call returns once the server goroutine is
started. -/
def exposeMetrics (p : Proc) : Proc :=
  { p with exposed := true, trace := p.trace ++ [.metricsExposed] }

/-- What happens next in the process after `Start` has returned. -/
inductive Action where
  /-- The main goroutine runs its next statement (line 55, then the `select` of lines
  56-61). -/
  | mainNext
  /-- The loop goroutine runs one iteration, its `select` running case `c`; `w` is the
  world during the poll of that iteration. -/
  | loop (c : SelectCase) (w : World)
  /-- The context is cancelled. -/
  | cancel
  /-- The server goroutine started by `exposeMetrics` finds that `ListenAndServe` has
  failed and calls `logger.Fatal` (line 128). -/
  | listenFails

/-- One scheduling step.  Nothing happens in a terminated process; an action that is not
enabled (the loop before it is started, the case `<-ctx.Done()` before cancellation, the
`select` of `main` before cancellation, the failure of a server that was not started)
leaves the state as it is. -/
def step (h : HeartbeatMonitor) (p : Proc) (a : Action) : Proc :=
  if p.exited then p else
  match a with
  | .mainNext =>
    if !p.exposed then exposeMetrics p
    else if p.cancelled then { p with exited := true, trace := p.trace ++ [.mainReturned] }
    else p
  | .loop c w =>
    if !p.loopRunning then p
    else if c = .ctxDone ∧ !p.cancelled then p
    else loopIteration h c w p
  | .cancel => { p with cancelled := true }
  | .listenFails =>
    if p.exposed then { p with trace := p.trace ++ [.fatal], exited := true } else p

/-- The process after `Start` followed by the scheduling steps `as`. -/
def run (h : HeartbeatMonitor) (as : List Action) (p : Proc) : Proc :=
  as.foldl (step h) p

/-! ## Concrete snapshots -/

/-- The snapshot of the scenario: one member `a` with heartbeat at second 1000. -/
def scenarioSnapshot : ringResponse :=
  { Ingesters := [("a", { Addr := "10.0.0.1:1", Timestamp := 1000, Tokens := [], Reg := 900 })] }

/-- A snapshot with the members `a` and `b`. -/
def snapshotAB : ringResponse :=
  { Ingesters := [("a", { Addr := "10.0.0.1:1", Timestamp := 1000, Tokens := [], Reg := 900 }),
      ("b", { Addr := "10.0.0.2:1", Timestamp := 1001, Tokens := [7], Reg := 901 })] }

/-- The snapshot `snapshotAB` visited in the other order. -/
def snapshotBA : ringResponse :=
  { Ingesters := [("b", { Addr := "10.0.0.2:1", Timestamp := 1001, Tokens := [7], Reg := 901 }),
      ("a", { Addr := "10.0.0.1:1", Timestamp := 1000, Tokens := [], Reg := 900 })] }

/-- A snapshot whose member `a` reports a heartbeat `2^53 + 1` seconds before second 1005. -/
def snapshotFarPast : ringResponse :=
  { Ingesters :=
      [("a", { Addr := "10.0.0.1:1", Timestamp := -9007199254739988, Tokens := [], Reg := 900 })] }

/-- A snapshot whose member `a` reports a heartbeat `2^63 - 1` seconds before second
1700000000. -/
def snapshotOverflow : ringResponse :=
  { Ingesters :=
      [("a", { Addr := "10.0.0.1:1", Timestamp := -9223372035154775807, Tokens := [], Reg := 900 })] }

/-- A snapshot without members (a nil or empty map). -/
def snapshotEmpty : ringResponse :=
  { Ingesters := [] }

/-! ## Facts about the machine arithmetic -/

theorem wrapInt64_of_inInt64 {x : Int} (hx : inInt64 x) : wrapInt64 x = x := by
  unfold inInt64 at hx
  unfold wrapInt64
  have h : (x + 2 ^ 63) % 2 ^ 64 = x + 2 ^ 63 := Int.emod_eq_of_lt (by omega) (by omega)
  omega

theorem inInt64_wrapInt64 (x : Int) : inInt64 (wrapInt64 x) := by
  unfold inInt64 wrapInt64
  have h1 : 0 ≤ (x + 2 ^ 63) % 2 ^ 64 := Int.emod_nonneg _ (by norm_num)
  have h2 : (x + 2 ^ 63) % 2 ^ 64 < 2 ^ 64 := Int.emod_lt_of_pos _ (by norm_num)
  omega

theorem bitLengthAux_spec (fuel : Nat) :
    ∀ n : Nat, n ≤ fuel → n < 2 ^ bitLengthAux fuel n ∧
      (n ≠ 0 → 2 ^ (bitLengthAux fuel n - 1) ≤ n) := by
  induction fuel with
  | zero =>
    intro n hn
    have : n = 0 := by omega
    subst this
    simp [bitLengthAux]
  | succ f ih =>
    intro n hn
    by_cases h0 : n = 0
    · subst h0
      simp [bitLengthAux]
    · have hhalf : n / 2 ≤ f := by omega
      obtain ⟨hlt, hge⟩ := ih (n / 2) hhalf
      simp only [bitLengthAux, h0, if_false, Nat.add_sub_cancel]
      constructor
      · rw [pow_succ]; omega
      · intro _
        by_cases h1 : n / 2 = 0
        · have hb : bitLengthAux f (n / 2) = 0 := by
            rw [h1]; cases f <;> simp [bitLengthAux]
          rw [hb]; simp; omega
        · have := hge h1
          have hpos : 0 < bitLengthAux f (n / 2) := by
            by_contra hc
            have hz : bitLengthAux f (n / 2) = 0 := by omega
            rw [hz] at hlt
            omega
          obtain ⟨k, hk⟩ : ∃ k, bitLengthAux f (n / 2) = k + 1 := ⟨_, (Nat.succ_pred_eq_of_pos hpos).symm⟩
          rw [hk] at this ⊢
          simp only [Nat.add_sub_cancel] at this
          rw [pow_succ]; omega

theorem lt_two_pow_bitLength (n : Nat) : n < 2 ^ bitLength n :=
  (bitLengthAux_spec n n (le_refl n)).1

theorem two_pow_bitLength_le {n : Nat} (hn : n ≠ 0) : 2 ^ (bitLength n - 1) ≤ n :=
  (bitLengthAux_spec n n (le_refl n)).2 hn

theorem bitLength_le_of_lt {n k : Nat} (h : n < 2 ^ k) : bitLength n ≤ k := by
  by_cases hn : n = 0
  · subst hn; cases k <;> simp [bitLength, bitLengthAux]
  · by_contra hc
    have h1 := two_pow_bitLength_le hn
    have h2 : 2 ^ k ≤ 2 ^ (bitLength n - 1) := Nat.pow_le_pow_right (by norm_num) (by omega)
    omega

theorem lt_bitLength_of_le {n k : Nat} (h : 2 ^ k ≤ n) : k < bitLength n := by
  by_contra hc
  have h1 := lt_two_pow_bitLength n
  have h2 : 2 ^ bitLength n ≤ 2 ^ k := Nat.pow_le_pow_right (by norm_num) (by omega)
  omega

theorem roundGrid_zero (a : Nat) : roundGrid a 0 = a := by
  simp [roundGrid, Nat.mod_one]

/-- A grid point below `a` is below the rounding of `a`. -/
theorem le_roundGrid {a e m : Nat} (h : m * 2 ^ e ≤ a) : m * 2 ^ e ≤ roundGrid a e := by
  have hpos : 0 < 2 ^ e := by positivity
  have hq : m ≤ a / 2 ^ e := (Nat.le_div_iff_mul_le hpos).2 h
  unfold roundGrid
  simp only
  split
  · exact Nat.mul_le_mul_right _ (by omega)
  · exact Nat.mul_le_mul_right _ hq

/-- A grid point above `a` is above the rounding of `a`. -/
theorem roundGrid_le {a e m : Nat} (h : a ≤ m * 2 ^ e) : roundGrid a e ≤ m * 2 ^ e := by
  have hpos : 0 < 2 ^ e := by positivity
  have hdm := Nat.div_add_mod a (2 ^ e)
  have hq : a / 2 ^ e ≤ m := by
    have : a / 2 ^ e ≤ m * 2 ^ e / 2 ^ e := Nat.div_le_div_right h
    rwa [Nat.mul_div_cancel _ hpos] at this
  unfold roundGrid
  simp only
  split
  · rename_i hc
    have hr : 0 < a % 2 ^ e := by
      rcases hc with hc | ⟨hc, _⟩ <;> omega
    apply Nat.mul_le_mul_right
    by_contra hlt
    have hqm : a / 2 ^ e = m := by omega
    rw [hqm, Nat.mul_comm] at hdm
    omega
  · exact Nat.mul_le_mul_right _ hq

theorem roundGrid_of_dvd (m e : Nat) : roundGrid (m * 2 ^ e) e = m * 2 ^ e :=
  le_antisymm (roundGrid_le (le_refl _)) (le_roundGrid (le_refl _))

theorem roundGrid_mono {a b e : Nat} (h : a ≤ b) : roundGrid a e ≤ roundGrid b e := by
  have hpos : 0 < 2 ^ e := by positivity
  have hshape : ∃ m, roundGrid b e = m * 2 ^ e := by
    unfold roundGrid; simp only; split <;> exact ⟨_, rfl⟩
  obtain ⟨m, hm⟩ := hshape
  by_cases hbm : a ≤ m * 2 ^ e
  · rw [hm]; exact roundGrid_le hbm
  · -- the rounding of `b` lies below `a ≤ b`, so it is the floor of `b`
    have hfloor : b / 2 ^ e * 2 ^ e ≤ roundGrid b e := le_roundGrid (Nat.div_mul_le_self b _)
    have hqa : b / 2 ^ e ≤ a / 2 ^ e := by
      apply (Nat.le_div_iff_mul_le hpos).2
      rw [hm] at hfloor; omega
    have hqb : a / 2 ^ e ≤ b / 2 ^ e := Nat.div_le_div_right h
    have hq : a / 2 ^ e = b / 2 ^ e := le_antisymm hqb hqa
    have hda := Nat.div_add_mod a (2 ^ e)
    have hdb := Nat.div_add_mod b (2 ^ e)
    have hr : a % 2 ^ e ≤ b % 2 ^ e := by rw [hq] at hda; omega
    have hbdown : roundGrid b e = b / 2 ^ e * 2 ^ e := by
      apply le_antisymm _ hfloor
      rw [hm]
      apply Nat.mul_le_mul_right
      by_contra hc
      have h1 : (b / 2 ^ e + 1) * 2 ^ e ≤ m * 2 ^ e := Nat.mul_le_mul_right _ (by omega)
      have h2 : a < (a / 2 ^ e + 1) * 2 ^ e := by
        have := Nat.mod_lt a hpos
        rw [Nat.add_mul, Nat.one_mul, Nat.mul_comm]; omega
      rw [hq] at h2
      omega
    have hbcond : ¬ (2 ^ e < 2 * (b % 2 ^ e) ∨ (2 * (b % 2 ^ e) = 2 ^ e ∧ b / 2 ^ e % 2 = 1)) := by
      intro hc
      have : roundGrid b e = (b / 2 ^ e + 1) * 2 ^ e := by
        unfold roundGrid; simp only; rw [if_pos hc]
      rw [this, Nat.add_mul] at hbdown
      omega
    have hacond : ¬ (2 ^ e < 2 * (a % 2 ^ e) ∨ (2 * (a % 2 ^ e) = 2 ^ e ∧ a / 2 ^ e % 2 = 1)) := by
      intro hc
      apply hbcond
      rw [← hq]
      rcases hc with hc | ⟨hc1, hc2⟩
      · left; omega
      · by_cases hrr : a % 2 ^ e = b % 2 ^ e
        · right; rw [← hrr]; exact ⟨hc1, hc2⟩
        · left; omega
    have : roundGrid a e = a / 2 ^ e * 2 ^ e := by
      unfold roundGrid; simp only; rw [if_neg hacond]
    rw [this, hbdown, hq]

theorem droppedBits_mono {a b : Nat} (h : a ≤ b) : droppedBits a ≤ droppedBits b := by
  have : bitLength a ≤ bitLength b :=
    bitLength_le_of_lt (lt_of_le_of_lt h (lt_two_pow_bitLength b))
  unfold droppedBits; omega

theorem float64OfNat_mono {a b : Nat} (h : a ≤ b) : float64OfNat a ≤ float64OfNat b := by
  unfold float64OfNat
  rcases Nat.lt_or_ge (droppedBits a) (droppedBits b) with hlt | hge
  · -- the power of two `2 ^ (droppedBits a + 53)` lies on both grids and separates `a`, `b`
    have hb0 : b ≠ 0 := by
      rintro rfl
      simp [droppedBits, bitLength, bitLengthAux] at hlt
    have hbl : bitLength b = droppedBits b + 53 := by unfold droppedBits at hlt ⊢; omega
    have hQ : 2 ^ 52 * 2 ^ droppedBits b ≤ b := by
      have := two_pow_bitLength_le hb0
      rw [hbl] at this
      rw [← pow_add]
      have he : droppedBits b + 53 - 1 = 52 + droppedBits b := by omega
      rwa [he] at this
    have hP : a ≤ 2 ^ 53 * 2 ^ droppedBits a := by
      have h1 := lt_two_pow_bitLength a
      have h2 : 2 ^ bitLength a ≤ 2 ^ (53 + droppedBits a) :=
        Nat.pow_le_pow_right (by norm_num) (by unfold droppedBits; omega)
      rw [← pow_add]; omega
    have hPQ : 2 ^ 53 * 2 ^ droppedBits a ≤ 2 ^ 52 * 2 ^ droppedBits b := by
      rw [← pow_add, ← pow_add]
      exact Nat.pow_le_pow_right (by norm_num) (by omega)
    exact le_trans (roundGrid_le hP) (le_trans hPQ (le_roundGrid hQ))
  · have heq : droppedBits a = droppedBits b := le_antisymm (droppedBits_mono h) hge
    rw [heq]
    exact roundGrid_mono h

theorem float64OfNat_exact {a : Nat} (h : a ≤ 2 ^ 53) : float64OfNat a = a := by
  rcases Nat.lt_or_ge a (2 ^ 53) with hlt | hge
  · have : droppedBits a = 0 := by
      have := bitLength_le_of_lt hlt
      unfold droppedBits; omega
    unfold float64OfNat
    rw [this, roundGrid_zero]
  · have : a = 2 ^ 53 := le_antisymm h hge
    subst this
    decide

theorem float64OfInt_mono {x y : Int} (h : x ≤ y) : float64OfInt x ≤ float64OfInt y := by
  unfold float64OfInt
  by_cases hx : 0 ≤ x
  · have hy : 0 ≤ y := le_trans hx h
    rw [if_pos hx, if_pos hy]
    have : x.natAbs ≤ y.natAbs := by omega
    exact_mod_cast float64OfNat_mono this
  · rw [if_neg hx]
    by_cases hy : 0 ≤ y
    · rw [if_pos hy]
      have h1 : (0 : Int) ≤ (float64OfNat x.natAbs : Int) := Int.ofNat_nonneg _
      have h2 : (0 : Int) ≤ (float64OfNat y.natAbs : Int) := Int.ofNat_nonneg _
      omega
    · rw [if_neg hy]
      have : y.natAbs ≤ x.natAbs := by omega
      have := float64OfNat_mono this
      omega

theorem float64OfInt_exact {x : Int} (h : |x| ≤ 2 ^ 53) : float64OfInt x = x := by
  have habs : x.natAbs ≤ 2 ^ 53 := by
    have : (x.natAbs : Int) ≤ 2 ^ 53 := by rw [Int.natCast_natAbs]; exact h
    exact_mod_cast this
  unfold float64OfInt
  rw [float64OfNat_exact habs]
  split <;> omega


/-! ## Facts about the gauge updates -/

/-- The value `poll` writes for an entry at time `currentTime`. -/
theorem updateMember_self (t : Int) (s : Store) (e : String × IngesterResponse) :
    updateMember t s e e.1 = some (float64OfInt (wrapInt64 (t - wrapInt64 e.2.Timestamp))) := by
  simp [updateMember, setGauge]

theorem updateMember_other (t : Int) (s : Store) (e : String × IngesterResponse) {l : String}
    (h : l ≠ e.1) : updateMember t s e l = s l := by
  simp [updateMember, setGauge, h]

/-- Labels that are not keys of the entries keep their value. -/
theorem updateAll_frame (t : Int) (es : List (String × IngesterResponse)) :
    ∀ (s : Store) (l : String), l ∉ es.map Prod.fst → updateAll t es s l = s l := by
  induction es with
  | nil => intro s l _; rfl
  | cons x xs ih =>
    intro s l hl
    simp only [List.map_cons, List.mem_cons, not_or] at hl
    show updateAll t xs (updateMember t s x) l = s l
    rw [ih _ _ hl.2, updateMember_other t s x hl.1]

/-- With distinct keys every entry's label holds that entry's value. -/
theorem updateAll_member (t : Int) (es : List (String × IngesterResponse)) :
    ∀ (s : Store), (es.map Prod.fst).Nodup → ∀ e ∈ es,
      updateAll t es s e.1 = some (float64OfInt (wrapInt64 (t - wrapInt64 e.2.Timestamp))) := by
  induction es with
  | nil => intro s _ e he; simp at he
  | cons x xs ih =>
    intro s hnd e he
    simp only [List.map_cons, List.nodup_cons] at hnd
    show updateAll t xs (updateMember t s x) e.1 = _
    rcases List.mem_cons.1 he with rfl | hmem
    · rw [updateAll_frame t xs _ _ hnd.1, updateMember_self]
    · exact ih _ hnd.2 e hmem

/-- On the keys of the entries the result does not depend on the store before. -/
theorem updateAll_key_indep (t : Int) (es : List (String × IngesterResponse)) :
    ∀ (s s' : Store) (l : String), l ∈ es.map Prod.fst →
      updateAll t es s l = updateAll t es s' l := by
  induction es with
  | nil => intro s s' l hl; simp at hl
  | cons x xs ih =>
    intro s s' l hl
    show updateAll t xs (updateMember t s x) l = updateAll t xs (updateMember t s' x) l
    by_cases hxs : l ∈ xs.map Prod.fst
    · exact ih _ _ l hxs
    · have hlx : l = x.1 := by
        simp only [List.map_cons, List.mem_cons] at hl
        rcases hl with h | h
        · exact h
        · exact absurd h hxs
      rw [updateAll_frame t xs _ _ hxs, updateAll_frame t xs _ _ hxs, hlx,
        updateMember_self, updateMember_self]

/-- Every key of the entries has a series afterwards. -/
theorem updateAll_key_isSome (t : Int) (es : List (String × IngesterResponse)) :
    ∀ (s : Store) (l : String), l ∈ es.map Prod.fst → (updateAll t es s l).isSome = true := by
  induction es with
  | nil => intro s l hl; simp at hl
  | cons x xs ih =>
    intro s l hl
    show (updateAll t xs (updateMember t s x) l).isSome = true
    by_cases hxs : l ∈ xs.map Prod.fst
    · exact ih _ l hxs
    · have hlx : l = x.1 := by
        simp only [List.map_cons, List.mem_cons] at hl
        rcases hl with h | h
        · exact h
        · exact absurd h hxs
      rw [updateAll_frame t xs _ _ hxs, hlx, updateMember_self]
      rfl

theorem updateAll_idem (t : Int) (es : List (String × IngesterResponse)) (s : Store) :
    updateAll t es (updateAll t es s) = updateAll t es s := by
  funext l
  by_cases hl : l ∈ es.map Prod.fst
  · exact updateAll_key_indep t es _ _ l hl
  · rw [updateAll_frame t es _ _ hl]

/-- What `poll` does when the three external calls succeed. -/
theorem poll_of_decoded (h : HeartbeatMonitor) (w : World) (s : Store) {resp : Response}
    {body : String} {r : ringResponse} (hget : w.httpGet (pollURL h) = .ok resp)
    (hread : resp.readAll = .ok body) (hdec : w.unmarshal body = .ok r) :
    poll h w s = (.returned, updateAll (wrapInt64 w.now) r.Ingesters s) := by
  simp [poll, hget, hread, hdec]


/-! ## The claims -/

/-- C1 (as amended): when the GET, the read and the decoding succeed, `poll` returns and the
gauge of every member `m` of the snapshot holds `float64(int64(t - Timestamp))`, the
difference reduced to 64 bits and rounded to the nearest float64; that value is exactly
`t - Timestamp` whenever the difference is at most `2^53` in absolute value. -/
theorem poll_writes_staleness (h : HeartbeatMonitor) (w : World) (s : Store) (resp : Response)
    (body : String) (r : ringResponse) (hget : w.httpGet (pollURL h) = .ok resp)
    (hread : resp.readAll = .ok body) (hdec : w.unmarshal body = .ok r)
    (hkeys : r.members.Nodup) (hnow : inInt64 w.now) :
    (poll h w s).1 = .returned ∧
    ∀ e ∈ r.Ingesters, inInt64 e.2.Timestamp →
      (poll h w s).2 e.1 = some (float64OfInt (wrapInt64 (w.now - e.2.Timestamp))) ∧
      (|w.now - e.2.Timestamp| ≤ 2 ^ 53 → (poll h w s).2 e.1 = some (w.now - e.2.Timestamp)) := by
  rw [poll_of_decoded h w s hget hread hdec]
  refine ⟨rfl, ?_⟩
  intro e he hts
  have hval := updateAll_member (wrapInt64 w.now) r.Ingesters s hkeys e he
  rw [wrapInt64_of_inInt64 hnow, wrapInt64_of_inInt64 hts] at hval
  show updateAll (wrapInt64 w.now) r.Ingesters s e.1 = _ ∧
    (_ → updateAll (wrapInt64 w.now) r.Ingesters s e.1 = _)
  rw [wrapInt64_of_inInt64 hnow]
  refine ⟨hval, ?_⟩
  intro hsmall
  have hin : inInt64 (w.now - e.2.Timestamp) := by
    have := abs_le.1 hsmall
    unfold inInt64; constructor <;> omega
  rw [hval, wrapInt64_of_inInt64 hin, float64OfInt_exact hsmall]

/-- C1, the scenario: the snapshot with member `a` at second 1000, polled at second 1005,
leaves 5 under label `a`. -/
theorem poll_writes_staleness_witness :
    (poll defaultMonitor (World.serving scenarioSnapshot 1005) emptyStore).2 "a" = some 5 :=
  ((poll_writes_staleness defaultMonitor (World.serving scenarioSnapshot 1005) emptyStore
    { readAll := .ok "" } "" scenarioSnapshot rfl rfl rfl (by decide) (by decide)).2
    ("a", { Addr := "10.0.0.1:1", Timestamp := 1000, Tokens := [], Reg := 900 })
    (by simp [scenarioSnapshot]) (by decide)).2 (by decide)

/-- C1 as stated fails: for a member whose heartbeat lies `2^53 + 1` seconds before the
poll time 1005, the gauge holds `2^53`, not the difference `2^53 + 1`. -/
theorem poll_staleness_inexact :
    (poll defaultMonitor (World.serving snapshotFarPast 1005) emptyStore).1 = .returned ∧
    (poll defaultMonitor (World.serving snapshotFarPast 1005) emptyStore).2 "a"
      = some 9007199254740992 ∧
    (poll defaultMonitor (World.serving snapshotFarPast 1005) emptyStore).2 "a"
      ≠ some (1005 - (-9007199254739988)) := by
  decide

/-- C2: when the GET, the read and the decoding succeed, every label that is not a member of
the snapshot has after `poll` the value (or the absence of a value) it had before. -/
theorem poll_keeps_absent_labels (h : HeartbeatMonitor) (w : World) (s : Store) (resp : Response)
    (body : String) (r : ringResponse) (hget : w.httpGet (pollURL h) = .ok resp)
    (hread : resp.readAll = .ok body) (hdec : w.unmarshal body = .ok r)
    (l : String) (hl : l ∉ r.members) :
    (poll h w s).2 l = s l := by
  rw [poll_of_decoded h w s hget hread hdec]
  exact updateAll_frame _ _ _ _ hl

/-- C2, the scenario: after a poll of `{a, b}` at second 1005 and a poll of `{a}` at second
1010, label `b` still holds the first poll's value 4 and label `a` holds the new value 10. -/
theorem poll_keeps_absent_labels_witness :
    (poll defaultMonitor (World.serving scenarioSnapshot 1010)
        (poll defaultMonitor (World.serving snapshotAB 1005) emptyStore).2).2 "b"
      = (poll defaultMonitor (World.serving snapshotAB 1005) emptyStore).2 "b" ∧
    (poll defaultMonitor (World.serving snapshotAB 1005) emptyStore).2 "b" = some 4 ∧
    (poll defaultMonitor (World.serving scenarioSnapshot 1010)
        (poll defaultMonitor (World.serving snapshotAB 1005) emptyStore).2).2 "a" = some 10 :=
  ⟨poll_keeps_absent_labels defaultMonitor (World.serving scenarioSnapshot 1010)
      (poll defaultMonitor (World.serving snapshotAB 1005) emptyStore).2
      { readAll := .ok "" } "" scenarioSnapshot rfl rfl rfl "b" (by decide),
    by decide, by decide⟩

/-- C3: when the GET fails, or reading the body fails, or the body does not decode, `poll`
ends in the fatal outcome with the store it was given, and the process that made the call
is terminated with its store unchanged. -/
theorem poll_fatal_keeps_store (h : HeartbeatMonitor) (w : World) (s : Store)
    (hfail : (∃ err, w.httpGet (pollURL h) = .error err) ∨
      (∃ resp err, w.httpGet (pollURL h) = .ok resp ∧ resp.readAll = .error err) ∨
      (∃ resp body err, w.httpGet (pollURL h) = .ok resp ∧ resp.readAll = .ok body ∧
        w.unmarshal body = .error err)) :
    (∃ msg, (poll h w s).1 = .fatal msg) ∧ (poll h w s).2 = s ∧
    ∀ (e : Event) (p : Proc), (callPoll h w e p).exited = true ∧
      (callPoll h w e p).store = p.store := by
  have key : ∀ s' : Store, ∃ msg, poll h w s' = (.fatal msg, s') := by
    intro s'
    rcases hfail with ⟨err, h1⟩ | ⟨resp, err, h1, h2⟩ | ⟨resp, body, err, h1, h2, h3⟩
    · exact ⟨"failed getting response from service", by simp [poll, h1]⟩
    · exact ⟨"failed reading response from service", by simp [poll, h1, h2]⟩
    · exact ⟨"failed unmarshalling response from service", by simp [poll, h1, h2, h3]⟩
  obtain ⟨msg, hmsg⟩ := key s
  refine ⟨⟨msg, by rw [hmsg]⟩, by rw [hmsg], ?_⟩
  intro e p
  obtain ⟨msg', hp⟩ := key p.store
  simp [callPoll, hp]

/-- C3 on a body that is not JSON: the poll is fatal and a store holding a value keeps it. -/
theorem poll_fatal_keeps_store_witness :
    (∃ msg, (poll defaultMonitor (World.malformed 1005) (setGauge emptyStore "a" 5)).1
      = .fatal msg) ∧
    (poll defaultMonitor (World.malformed 1005) (setGauge emptyStore "a" 5)).2
      = setGauge emptyStore "a" 5 :=
  ⟨(poll_fatal_keeps_store defaultMonitor (World.malformed 1005) (setGauge emptyStore "a" 5)
      (Or.inr (Or.inr ⟨{ readAll := .ok "not json" }, "not json", "invalid character",
        rfl, rfl, rfl⟩))).1,
   (poll_fatal_keeps_store defaultMonitor (World.malformed 1005) (setGauge emptyStore "a" 5)
      (Or.inr (Or.inr ⟨{ readAll := .ok "not json" }, "not json", "invalid character",
        rfl, rfl, rfl⟩))).2.1⟩


/-- C6: polling twice in the same world yields what polling once yields, outcome and store;
in particular the update for a snapshot and a poll time, applied twice, gives the stored
values it gives when applied once. -/
theorem poll_idempotent (h : HeartbeatMonitor) (w : World) (s : Store) (t : Int)
    (es : List (String × IngesterResponse)) :
    poll h w (poll h w s).2 = poll h w s ∧
    updateAll t es (updateAll t es s) = updateAll t es s := by
  refine ⟨?_, updateAll_idem t es s⟩
  unfold poll
  simp only
  cases w.httpGet (pollURL h) with
  | error err => rfl
  | ok resp =>
    simp only
    cases resp.readAll with
    | error err => rfl
    | ok body =>
      simp only
      cases w.unmarshal body with
      | error err => rfl
      | ok r => simp only [updateAll_idem]

/-- C7 (as amended): for a member of a snapshot and poll times `t1 ≤ t2` whose differences
to the member's timestamp both fit 64 bits, the value a poll at `t1` stores for the member
is at most the value a poll at `t2` stores for it. -/
theorem staleness_monotone (t1 t2 : Int) (es : List (String × IngesterResponse))
    (s1 s2 : Store) (e : String × IngesterResponse) (he : e ∈ es)
    (hkeys : (es.map Prod.fst).Nodup) (hts : inInt64 e.2.Timestamp)
    (h1 : inInt64 (t1 - e.2.Timestamp)) (h2 : inInt64 (t2 - e.2.Timestamp))
    (hle : t1 ≤ t2) :
    ∃ v1 v2, updateAll t1 es s1 e.1 = some v1 ∧ updateAll t2 es s2 e.1 = some v2 ∧ v1 ≤ v2 := by
  refine ⟨_, _, updateAll_member t1 es s1 hkeys e he, updateAll_member t2 es s2 hkeys e he, ?_⟩
  rw [wrapInt64_of_inInt64 hts, wrapInt64_of_inInt64 h1, wrapInt64_of_inInt64 h2]
  exact float64OfInt_mono (by omega)

/-- C7 on the scenario snapshot: the value stored at second 1005 is at most the one stored
at second 1010. -/
theorem staleness_monotone_witness :
    ∃ v1 v2, updateAll 1005 scenarioSnapshot.Ingesters emptyStore "a" = some v1 ∧
      updateAll 1010 scenarioSnapshot.Ingesters emptyStore "a" = some v2 ∧ v1 ≤ v2 :=
  staleness_monotone 1005 1010 scenarioSnapshot.Ingesters emptyStore emptyStore
    ("a", { Addr := "10.0.0.1:1", Timestamp := 1000, Tokens := [], Reg := 900 })
    (by simp [scenarioSnapshot]) (by decide) (by decide) (by decide) (by decide) (by decide)

/-- C7 as stated fails: for a member whose heartbeat lies `2^63 - 1` seconds before second
1700000000, the poll at that second stores `2^63` and the poll one second later, where the
64-bit subtraction wraps, stores `-2^63`. -/
theorem staleness_drops_on_overflow :
    (1700000000 : Int) ≤ 1700000001 ∧
    (poll defaultMonitor (World.serving snapshotOverflow 1700000000) emptyStore).2 "a"
      = some 9223372036854775808 ∧
    (poll defaultMonitor (World.serving snapshotOverflow 1700000001) emptyStore).2 "a"
      = some (-9223372036854775808) ∧
    ¬ ((9223372036854775808 : Int) ≤ -9223372036854775808) := by
  decide

/-- C8: when the GET and the read succeed and the body decodes to a snapshot without
members, `poll` returns (no fatal outcome) and the store is the store it was given. -/
theorem poll_empty_snapshot (h : HeartbeatMonitor) (w : World) (s : Store) (resp : Response)
    (body : String) (r : ringResponse) (hget : w.httpGet (pollURL h) = .ok resp)
    (hread : resp.readAll = .ok body) (hdec : w.unmarshal body = .ok r)
    (hempty : r.Ingesters = []) :
    poll h w s = (.returned, s) := by
  rw [poll_of_decoded h w s hget hread hdec, hempty]
  rfl

/-- C8 on a store that holds a value: the poll of the empty snapshot returns and keeps it. -/
theorem poll_empty_snapshot_witness :
    poll defaultMonitor (World.serving snapshotEmpty 1005) (setGauge emptyStore "a" 5)
      = (.returned, setGauge emptyStore "a" 5) :=
  poll_empty_snapshot defaultMonitor (World.serving snapshotEmpty 1005)
    (setGauge emptyStore "a" 5) { readAll := .ok "" } "" snapshotEmpty rfl rfl rfl rfl

/-- C9: the URL `poll` requests is `http://`, the service address, `/memberlist?viewKey=`,
the view key and `&format=json-pretty`, the two operands unchanged; with the flag defaults
it is `http://host.docker.internal:8080/memberlist?viewKey=collectors/ring&format=json-pretty`. -/
theorem pollURL_eq (i : Int) (a k : String) :
    pollURL (NewHeartbeatMonitor i a k)
      = "http://" ++ a ++ "/memberlist?viewKey=" ++ k ++ "&format=json-pretty" ∧
    pollURL defaultMonitor
      = "http://host.docker.internal:8080/memberlist?viewKey=collectors/ring&format=json-pretty" := by
  refine ⟨?_, by decide⟩
  apply String.ext
  simp [pollURL, sprintf, sprintfChars, NewHeartbeatMonitor, String.data_append]

/-- C10: for two visiting orders of the same entries with distinct keys, the updates leave
the same store, and a label has a series in it exactly when it had one before or is a key
of the entries. -/
theorem updateAll_order_independent (t : Int) (es1 es2 : List (String × IngesterResponse))
    (s : Store) (hkeys : (es1.map Prod.fst).Nodup) (hperm : es1.Perm es2) :
    updateAll t es1 s = updateAll t es2 s ∧
    ∀ l : String, (updateAll t es1 s l).isSome = true ↔
      ((s l).isSome = true ∨ l ∈ es1.map Prod.fst) := by
  have hkeys2 : (es2.map Prod.fst).Nodup := (hperm.map Prod.fst).nodup_iff.1 hkeys
  constructor
  · funext l
    by_cases hl : l ∈ es1.map Prod.fst
    · obtain ⟨e, he, rfl⟩ := List.mem_map.1 hl
      rw [updateAll_member t es1 s hkeys e he,
        updateAll_member t es2 s hkeys2 e (hperm.mem_iff.1 he)]
    · have hl2 : l ∉ es2.map Prod.fst := fun hc => hl ((hperm.map Prod.fst).mem_iff.2 hc)
      rw [updateAll_frame t es1 s l hl, updateAll_frame t es2 s l hl2]
  · intro l
    by_cases hl : l ∈ es1.map Prod.fst
    · simp [hl, updateAll_key_isSome t es1 s l hl]
    · rw [updateAll_frame t es1 s l hl]
      simp [hl]

/-- C10 on the snapshot `{a, b}`: visiting `a` first or `b` first leaves the same store. -/
theorem updateAll_order_independent_witness :
    updateAll 1005 snapshotAB.Ingesters emptyStore
      = updateAll 1005 snapshotBA.Ingesters emptyStore :=
  (updateAll_order_independent 1005 snapshotAB.Ingesters snapshotBA.Ingesters emptyStore
    (by decide) (by decide)).1


/-! ## Facts about the process -/

/-- A call of `poll` by the process appends one event, its own or `fatal`. -/
theorem callPoll_trace (h : HeartbeatMonitor) (w : World) (e : Event) (p : Proc) :
    (callPoll h w e p).trace = p.trace ++ [e] ∨ (callPoll h w e p).trace = p.trace ++ [.fatal] := by
  unfold callPoll
  rcases hp : poll h w p.store with ⟨o, s'⟩
  cases o <;> simp

/-- A scheduling step only appends events, none of which is the initial poll. -/
theorem step_trace (h : HeartbeatMonitor) (p : Proc) (a : Action) :
    ∃ rest, (step h p a).trace = p.trace ++ rest ∧ Event.initialPoll ∉ rest := by
  unfold step
  by_cases hex : p.exited = true
  · exact ⟨[], by simp [hex]⟩
  · simp only [hex, if_false]
    cases a with
    | mainNext =>
      by_cases h1 : p.exposed = true
      · by_cases h2 : p.cancelled = true
        · exact ⟨[.mainReturned], by simp [h1, h2]⟩
        · exact ⟨[], by simp [h1, h2]⟩
      · exact ⟨[.metricsExposed], by simp [h1, exposeMetrics]⟩
    | cancel => exact ⟨[], by simp⟩
    | listenFails =>
      by_cases h1 : p.exposed = true
      · exact ⟨[.fatal], by simp [h1]⟩
      · exact ⟨[], by simp [h1]⟩
    | loop c w =>
      by_cases h1 : p.loopRunning = true
      · by_cases h2 : c = .ctxDone ∧ (!p.cancelled) = true
        · exact ⟨[], by simp [h1, h2]⟩
        · simp only [h1, h2, Bool.not_true, if_false]
          cases c with
          | ctxDone =>
            exact ⟨[.cycleLogged, .cancelSeen], by
              simp [loopIteration, selectStmt, selectCase, Proc.log]⟩
          | tickerC =>
            rcases callPoll_trace h w .tickPoll (p.log .cycleLogged) with ht | ht
            · refine ⟨[.cycleLogged, .tickPoll], ?_, by simp⟩
              show (callPoll h w .tickPoll (p.log .cycleLogged)).trace = _
              rw [ht]; simp [Proc.log]
            · refine ⟨[.cycleLogged, .fatal], ?_, by simp⟩
              show (callPoll h w .tickPoll (p.log .cycleLogged)).trace = _
              rw [ht]; simp [Proc.log]
      · exact ⟨[], by simp [h1]⟩

theorem run_trace (h : HeartbeatMonitor) (as : List Action) :
    ∀ p : Proc, ∃ rest, (run h as p).trace = p.trace ++ rest ∧ Event.initialPoll ∉ rest := by
  induction as with
  | nil => intro p; exact ⟨[], by simp [run]⟩
  | cons a as ih =>
    intro p
    obtain ⟨r1, h1, n1⟩ := step_trace h p a
    obtain ⟨r2, h2, n2⟩ := ih (step h p a)
    refine ⟨r1 ++ r2, ?_, by simp [n1, n2]⟩
    show (run h as (step h p a)).trace = _
    rw [h2, h1, List.append_assoc]

/-- Nothing happens in a terminated process. -/
theorem run_exited (h : HeartbeatMonitor) (as : List Action) :
    ∀ p : Proc, p.exited = true → run h as p = p := by
  induction as with
  | nil => intro p _; rfl
  | cons a as ih =>
    intro p hp
    have hs : step h p a = p := by simp [step, hp]
    show run h as (step h p a) = p
    rw [hs]; exact ih p hp

/-- No scheduling step takes the goroutine out of its `for` loop. -/
theorem step_loopRunning (h : HeartbeatMonitor) (p : Proc) (a : Action) (hl : p.loopRunning = true) :
    (step h p a).loopRunning = true := by
  unfold step
  by_cases hex : p.exited = true
  · simp [hex, hl]
  · simp only [hex, if_false]
    cases a with
    | mainNext => by_cases h1 : p.exposed = true <;> by_cases h2 : p.cancelled = true <;>
        simp [h1, h2, hl, exposeMetrics]
    | cancel => simpa using hl
    | listenFails => by_cases h1 : p.exposed = true <;> simp [h1, hl]
    | loop c w =>
      by_cases h2 : c = .ctxDone ∧ (!p.cancelled) = true
      · simp [hl, h2]
      · simp only [hl, h2, Bool.not_true, if_false]
        cases c with
        | ctxDone => simpa [loopIteration, selectStmt, selectCase, Proc.log] using hl
        | tickerC =>
          simp only [loopIteration, selectStmt, selectCase, callPoll]
          rcases hp : poll h w (p.log .cycleLogged).store with ⟨o, s'⟩
          cases o <;> simpa [Proc.log] using hl

/-- Whatever the schedule, the goroutine started by `Start` stays in its `for` loop: the
loop has no exit, also after it has seen the cancellation. -/
theorem run_loopRunning (h : HeartbeatMonitor) (as : List Action) :
    ∀ p : Proc, p.loopRunning = true → (run h as p).loopRunning = true := by
  induction as with
  | nil => intro p hp; exact hp
  | cons a as ih => intro p hp; exact ih _ (step_loopRunning h p a hp)

/-! ## The claims about Start -/

/-- C4, evaluated: after `Start`, let the context be cancelled, let the loop run the case
`<-ctx.Done()` and then, the ticker having fired, the case `<-ticker.C`.  The loop has seen
the cancellation and polls all the same (label `a` goes from 5 to 10), and the goroutine is
still in its loop. -/
theorem loop_polls_after_cancel :
    (run defaultMonitor
      [.cancel, .loop .ctxDone (World.serving scenarioSnapshot 1007),
        .loop .tickerC (World.serving scenarioSnapshot 1010)]
      (Start defaultMonitor (World.serving scenarioSnapshot 1005) (Proc.init emptyStore))).trace
      = [.initialPoll, .tickerCreated, .loopStarted, .cycleLogged, .cancelSeen, .cycleLogged,
          .tickPoll] ∧
    (run defaultMonitor
      [.cancel, .loop .ctxDone (World.serving scenarioSnapshot 1007),
        .loop .tickerC (World.serving scenarioSnapshot 1010)]
      (Start defaultMonitor (World.serving scenarioSnapshot 1005) (Proc.init emptyStore))).loopRunning
      = true ∧
    (Start defaultMonitor (World.serving scenarioSnapshot 1005) (Proc.init emptyStore)).store "a"
      = some 5 ∧
    (run defaultMonitor
      [.cancel, .loop .ctxDone (World.serving scenarioSnapshot 1007),
        .loop .tickerC (World.serving scenarioSnapshot 1010)]
      (Start defaultMonitor (World.serving scenarioSnapshot 1005) (Proc.init emptyStore))).store "a"
      = some 10 := by
  decide

/-- C5: `Start` leaves the store its one poll leaves.  When that poll returns, `Start` has
performed, in this order, the poll, the creation of the ticker and the start of the loop,
and in every continuation of the process the trace begins with these three events and has
no second initial poll, so every poll of the loop and the exposition of the metrics come
after the initial poll.  When that poll is fatal the process ends there: no loop, no
exposition. -/
theorem Start_polls_first (h : HeartbeatMonitor) (w : World) (s : Store) (as : List Action) :
    (Start h w (Proc.init s)).store = (poll h w s).2 ∧
    match (poll h w s).1 with
    | .returned =>
      (Start h w (Proc.init s)).trace
        = (if h.pollInterval ≤ 0 then [.initialPoll, .panicked]
            else [.initialPoll, .tickerCreated, .loopStarted]) ∧
      ∃ rest, (run h as (Start h w (Proc.init s))).trace = .initialPoll :: rest ∧
        Event.initialPoll ∉ rest
    | .fatal _ =>
      (run h as (Start h w (Proc.init s))).trace = [.fatal] ∧
      (run h as (Start h w (Proc.init s))).loopRunning = false ∧
      (run h as (Start h w (Proc.init s))).exposed = false := by
  rcases hp : poll h w s with ⟨o, s'⟩
  cases o with
  | returned =>
    have hstore : (Start h w (Proc.init s)).store = s' := by
      by_cases hi : h.pollInterval ≤ 0 <;> simp [Start, callPoll, Proc.init, Proc.log, hp, hi]
    have htrace : (Start h w (Proc.init s)).trace
        = (if h.pollInterval ≤ 0 then [.initialPoll, .panicked]
            else [.initialPoll, .tickerCreated, .loopStarted]) := by
      by_cases hi : h.pollInterval ≤ 0 <;> simp [Start, callPoll, Proc.init, Proc.log, hp, hi]
    refine ⟨hstore, ?_⟩
    simp only
    refine ⟨htrace, ?_⟩
    obtain ⟨rest, hr, hn⟩ := run_trace h as (Start h w (Proc.init s))
    rw [hr, htrace]
    by_cases hi : h.pollInterval ≤ 0
    · exact ⟨.panicked :: rest, by simp [hi], by simp [hn]⟩
    · exact ⟨.tickerCreated :: .loopStarted :: rest, by simp [hi], by simp [hn]⟩
  | fatal msg =>
    have hS : Start h w (Proc.init s) =
        { store := s', trace := [.fatal],
          loopRunning := false, cancelled := false, exposed := false, exited := true } := by
      simp [Start, callPoll, Proc.init, hp]
    refine ⟨by rw [hS], ?_⟩
    simp only
    rw [run_exited h as _ (by rw [hS]), hS]
    exact ⟨rfl, rfl, rfl⟩

end Heartbeat
